import Mathlib

/-!
Shallow embedding of `pdbufr/bufr_structure.py`: the structural
reconstruction and extraction engine that turns the flat ordered key
stream of a decoded BUFR message into flat observation records.

Modelling conventions:
* a decoded message is an ordered association list `(key, value)`;
  iterating a message iterates its keys in order and `message[k]` is the
  first-match lookup (`none` models a Python `KeyError`);
* decoded values are integers, floats (modelled as rationals, since the
  code only ever compares a float for equality with the fixed
  missing-value sentinel), strings, `None`, and one-dimensional arrays
  of such scalars (the decoder only produces 1-D arrays);
* `collections.OrderedDict` state is modelled by Lean lists together
  with the explicit LIFO `popitem` discipline of the source.
-/

namespace PdBufr

/-- Scalar decoded values: Python int, float, str and None. -/
inductive Scalar where
  | sint : Int → Scalar
  | sfloat : ℚ → Scalar
  | sstr : String → Scalar
  | snone : Scalar
deriving DecidableEq, Repr

/-- A decoded value is a scalar or a one-dimensional array of scalars
(`numpy.ndarray` in the source). -/
inductive Value where
  | scalar : Scalar → Value
  | varr : List Scalar → Value
deriving DecidableEq, Repr

/-- Python `int` value. -/
abbrev Value.vint (n : Int) : Value := Value.scalar (Scalar.sint n)

/-- Python `float` value. -/
abbrev Value.vfloat (q : ℚ) : Value := Value.scalar (Scalar.sfloat q)

/-- Python `str` value. -/
abbrev Value.vstr (s : String) : Value := Value.scalar (Scalar.sstr s)

/-- Python `None`. -/
abbrev Value.vnone : Value := Value.scalar Scalar.snone

/-- Missing-value sentinel `eccodes.CODES_MISSING_DOUBLE` (`-1e100`). -/
def CODES_MISSING_DOUBLE : ℚ := -(10 ^ 100)

/-- Python truthiness `bool(v)` for the decoded values that occur as the
`compressedData` flag (an integer in the decoder interface). -/
def Value.truthy : Value → Bool
  | Value.scalar (Scalar.sint n) => n != 0
  | Value.scalar (Scalar.sfloat q) => q != 0
  | Value.scalar (Scalar.sstr s) => !s.isEmpty
  | Value.scalar Scalar.snone => false
  | Value.varr l => !l.isEmpty

/-- A decoded BUFR message: ordered key/value pairs. -/
abbrev Message := List (String × Value)

/-- Python `message[key]`; `none` models a raised `KeyError`. -/
def mlookup (message : Message) (key : String) : Option Value :=
  match message with
  | [] => none
  | (k, v) :: rest => if k = key then some v else mlookup rest key

/-- Helper for `str.rpartition("#")`: split a character list at its last
`#`, returning the parts before and after it, or `none` when absent. -/
def rpartAux : List Char → Option (List Char × List Char)
  | [] => none
  | c :: rest =>
    match rpartAux rest with
    | some (b, a) => some (c :: b, a)
    | none => if c = '#' then some ([], rest) else none

/-- Decimal digit value of a character. -/
def digitVal (c : Char) : Option Nat :=
  if c.isDigit then some (c.toNat - 48) else none

/-- Accumulating decimal parse over characters. -/
def parseNatAux : List Char → Nat → Option Nat
  | [], acc => some acc
  | c :: rest, acc =>
    match digitVal c with
    | some d => parseNatAux rest (acc * 10 + d)
    | none => none

/-- Python `int(s)` on a non-negative decimal string (the source only
applies it to rank texts and classification codes, which the decoder
always supplies as decimal digits). -/
def parseNat (s : String) : Option Nat :=
  match s.data with
  | [] => none
  | l => parseNatAux l 0

/-- Bare name of a key: the part after the last `#`, or the whole key
when there is no `#` (`key.rpartition("#")[2]` in the source). -/
def bareName (key : String) : String :=
  match rpartAux key.data with
  | some (_, a) => String.mk a
  | none => key

/-- Ranked key identity: hierarchy level, repetition rank (0 means
unranked) and bare name (`BufrKey` in the source). -/
structure BufrKey where
  level : Nat
  rank : Nat
  name : String
deriving DecidableEq, Repr

/-- Constructor `BufrKey.from_level_key`: parse `#rank#name` decoration
from a full key (`rank = int(rank_text[1:])` in the source; decoder rank
texts are always decimal, so the parse never fails on real input). -/
def BufrKey.from_level_key (level : Nat) (key : String) : BufrKey :=
  match rpartAux key.data with
  | some (b, a) =>
    { level := level
      rank := (parseNat (String.mk (b.drop 1))).getD 0
      name := String.mk a }
  | none => { level := level, rank := 0, name := key }

/-- Textual form of a ranked key identity (property `key` in the
source): `#rank#name` when ranked, else the bare name. -/
def BufrKey.key (k : BufrKey) : String :=
  if k.rank ≠ 0 then "#" ++ toString k.rank ++ "#" ++ k.name else k.name

/-- Hard-coded classification overrides `IS_KEY_COORD`: `subsetNumber`
is always a coordinate, `operator` never is. -/
def IS_KEY_COORD : List (String × Bool) :=
  [("subsetNumber", true), ("operator", false)]

/-- Coordinate classification of one key: special-name table first, else
the first three digits of the `key->code` lookup decide (codes below 10
are coordinates); any failed lookup means non-coordinate. -/
def isCoord (message : Message) (key name : String) : Bool :=
  match (IS_KEY_COORD.lookup name) with
  | some b => b
  | none =>
    match mlookup message (key ++ "->code") with
    | some (Value.scalar (Scalar.sstr code)) =>
      match parseNat (String.mk (code.data.take 3)) with
      | some n => n < 10
      | none => false
    | _ => false

/-- Coordinate Stack discipline of `message_structure`: while the bare
name is still present, pop the most-recently-inserted entry and take its
level (`OrderedDict.popitem` LIFO order; the stack is stored here with
the most recent entry first). -/
def popCoords (name : String) : Nat → List (String × Nat) → Nat × List (String × Nat)
  | level, [] => (level, [])
  | level, (n, l) :: rest =>
    if n = name ∨ rest.any (fun p => p.1 = name) then popCoords name l rest
    else (level, (n, l) :: rest)

/-- Main loop of `message_structure` over the message's keys, carrying
the current level and the Coordinate Stack. -/
def msLoop (message : Message) : List String → Nat → List (String × Nat) → List (Nat × String)
  | [], _, _ => []
  | key :: rest, level, coords =>
    let name := bareName key
    let co := isCoord message key name
    let p := if co then popCoords name level coords else (level, coords)
    (p.1, key) ::
      (if co then msLoop message rest (p.1 + 1) ((name, p.1) :: p.2)
       else msLoop message rest p.1 p.2)

/-- Level Assigner `message_structure`: the `(level, key)` stream of one
message, hierarchy inferred from coordinate keys. -/
def message_structure (message : Message) : List (Nat × String) :=
  msLoop message (message.map Prod.fst) 0 []

/-- Key Filter `filter_keys`: keep the keys whose bare name or full
ranked identity is in the include collection; the empty include
collection keeps everything. -/
def filter_keys (message : Message) (inc : List String) : List BufrKey :=
  ((message_structure message).map (fun p => BufrKey.from_level_key p.1 p.2)).filter
    (fun bufr_key => inc = [] ∨ bufr_key.name ∈ inc ∨ bufr_key.key ∈ inc)

/-- Lexicographic character-list comparison by code point, matching the
ordering Python's `sorted` uses on strings. -/
def listCharLe : List Char → List Char → Bool
  | [], _ => true
  | _ :: _, [] => false
  | a :: as, b :: bs =>
    if a.toNat < b.toNat then true
    else if b.toNat < a.toNat then false
    else listCharLe as bs

/-- String comparison used by `sorted(include)`. -/
def strLe (a b : String) : Bool := listCharLe a.data b.data

/-- Insert a string into a sorted list. -/
def insertSorted (x : String) : List String → List String
  | [] => [x]
  | y :: ys => if strLe x y then x :: y :: ys else y :: insertSorted x ys

/-- Python `sorted` on a list of strings (stable insertion sort). -/
def sortStrings : List String → List String
  | [] => []
  | x :: xs => insertSorted x (sortStrings xs)

/-- Components of a Message Structural Fingerprint; `none` is the tuple
sentinel written after the descriptor component (Python `None`). -/
abbrev UidElem := Option Value

/-- Fingerprint builder `make_message_uid`: edition, master table
number, subset count, the descriptor component (scalar or sequence,
always followed by the `None` sentinel) and the delayed replication
factors (empty when absent). A `none` result models the uncaught
`KeyError`/`TypeError` a malformed message would raise. -/
def make_message_uid (message : Message) : Option (List UidElem) := do
  let ed ← mlookup message "edition"
  let mtn ← mlookup message "masterTableNumber"
  let ns ← mlookup message "numberOfSubsets"
  let descriptors ← mlookup message "unexpandedDescriptors"
  let descPart ← match descriptors with
    | Value.scalar (Scalar.sint d) => some [some (Value.vint d), none]
    | Value.varr l => some (l.map (fun s => some (Value.scalar s)) ++ [none])
    | _ => none
  let delayedPart ← match mlookup message "delayedDescriptorReplicationFactor" with
    | none => some []
    | some (Value.scalar (Scalar.sint d)) => some [some (Value.vint d)]
    | some (Value.varr l) => some (l.map (fun s => some (Value.scalar s)))
    | some _ => none
  return [some ed, some mtn, some ns] ++ descPart ++ delayedPart

/-- Structure Cache: association list keyed by fingerprint plus sorted
include tuple. -/
abbrev Cache := List (List UidElem × List BufrKey)

/-- Cache key of one `filter_keys_cached` call: the message fingerprint
followed by the sorted include strings. -/
def cacheKey (message : Message) (inc : List String) : Option (List UidElem) :=
  (make_message_uid message).map
    (fun uid => uid ++ (sortStrings inc).map (fun s => some (Value.vstr s)))

/-- First-match lookup in the Structure Cache. -/
def clookup (cache : Cache) (k : List UidElem) : Option (List BufrKey) :=
  match cache with
  | [] => none
  | (k2, v) :: rest => if k2 = k then some v else clookup rest k

/-- Memoized Key Filter `filter_keys_cached`: on a cache hit return the
stored list unchanged; on a miss run `filter_keys` on the sorted include
tuple, store the result and return it. Returns the produced list and
the updated cache (`none` models the `KeyError` of a message missing a
fingerprint header field). -/
def filter_keys_cached (message : Message) (cache : Cache) (inc : List String) :
    Option (List BufrKey × Cache) := do
  let k ← cacheKey message inc
  match clookup cache k with
  | some stored => return (stored, cache)
  | none =>
    let computed := filter_keys message (sortStrings inc)
    return (computed, cache ++ [(k, computed)])

/-- A batch of `filter_keys_cached` calls threaded through one cache, as
a stream-processing session performs them. -/
def runCalls : List (Message × List String) → Cache → Option Cache
  | [], cache => some cache
  | (m, inc) :: rest, cache => do
    let r ← filter_keys_cached m cache inc
    runCalls rest r.2

/-- Modelled from the spec: the filter-predicate compiler of the
external `bufr_filters` module is out of scope; a compiled Filter
Predicate exposes a match operation `matchVal` and, for the
synthetic `count` attribute, an optional upper bound (`.max()`). -/
structure BufrFilter where
  matchVal : Value → Bool
  max : Option Nat

/-- Compiled filter mapping: bare name to Filter Predicate. -/
abbrev Filters := List (String × BufrFilter)

/-- Observation Record: ordered mapping from bare name to value. -/
abbrev Obs := List (String × Value)

/-- Python `name in current_observation`. -/
def obsHas (obs : Obs) (name : String) : Bool :=
  obs.any (fun p => p.1 = name)

/-- Python `current_observation[name] = value` on an `OrderedDict`: an
existing key keeps its position, a new key is appended. -/
def dictInsert (obs : Obs) (name : String) (value : Value) : Obs :=
  if obs.any (fun p => p.1 = name) then
    obs.map (fun p => if p.1 = name then (p.1, value) else p)
  else obs ++ [(name, value)]

/-- Reset condition shared by the emit check and the backtrack loop of
`extract_observations`: the current level is below the deepest open
level, or equals it while the bare name is already recorded. -/
def resetCond (level : Nat) (name : String) (obs : Obs) (levels : List Nat) : Bool :=
  decide (level < levels.headD 0) ||
    (decide (level = levels.headD 0) && obsHas obs name)

/-- Backtrack loop on the reversed record (most recently added
attribute first): while the record is non-empty and the reset condition
holds, pop that attribute and the top level. The reset condition only
tests membership, so evaluating it on the reversed record agrees with
the source. -/
def backtrackAux (level : Nat) (name : String) :
    List (String × Value) → List Nat → List (String × Value) × List Nat
  | [], levels => ([], levels)
  | p :: rest, levels =>
    if resetCond level name (p :: rest) levels then
      backtrackAux level name rest levels.tail
    else (p :: rest, levels)

/-- Backtrack loop: while the record is non-empty and the reset
condition holds, pop the most recently added attribute and its level
(`OrderedDict.popitem` LIFO order; the level stack is stored with the
deepest level first). -/
def backtrack (level : Nat) (name : String) (obs : Obs) (levels : List Nat) :
    Obs × List Nat :=
  let r := backtrackAux level name obs.reverse levels
  (r.1.reverse, r.2)

/-- Subset-indexing test of step 4: the retrieved value is an array
whose length equals the subset count (the source tests only this, never
the compression flag itself). -/
def subsetIndexed (subsetCount : Nat) (value : Value) : Bool :=
  match value with
  | Value.varr l => l.length == subsetCount
  | _ => false

/-- Step-4 subset indexing: index an array of matching length by the
current subset number. -/
def resolveSubset (subsetCount subset : Nat) (value : Value) : Value :=
  match value with
  | Value.varr l =>
    if l.length = subsetCount then Value.scalar (l.getD subset Scalar.snone)
    else value
  | _ => value

/-- Step-4 missing-value replacement: a float equal to the decoder's
missing sentinel becomes the absence marker `None`. -/
def resolveMissing (value : Value) : Value :=
  match value with
  | Value.scalar (Scalar.sfloat q) =>
    if q = CODES_MISSING_DOUBLE then Value.vnone else value
  | _ => value

/-- Check that every bare name of the filters mapping is present in the
record (`all(name in current_observation for name in filters)`). -/
def allFilterNamesPresent (filters : Filters) (obs : Obs) : Bool :=
  filters.all (fun f => obsHas obs f.1)

/-- Per-subset extraction state: the per-message value cache, the
record under construction, the open-level stack and the level of the
last failed filter match. -/
structure ExtState where
  valueCache : List (String × Value)
  obs : Obs
  levels : List Nat
  failed : Option Nat

/-- Skip-while-failed test of step 1. -/
def failedSkip (failed : Option Nat) (level : Nat) : Bool :=
  match failed with
  | some fl => decide (fl < level)
  | none => false

/-- One iteration of the `extract_observations` key loop: emit-check,
backtrack, cached value retrieval (`none` models the uncaught
`KeyError` of a key absent from the message), subset indexing, missing
replacement, filter application and accumulation. -/
def extractStep (message : Message) (subsetCount subset : Nat) (filters : Filters)
    (st : ExtState) (bufr_key : BufrKey) : Option (List Obs × ExtState) :=
  let level := bufr_key.level
  let name := bufr_key.name
  if failedSkip st.failed level then some ([], st)
  else
    let emits :=
      if allFilterNamesPresent filters st.obs && resetCond level name st.obs st.levels
      then [st.obs] else []
    let bt := backtrack level name st.obs st.levels
    let fetched : Option (List (String × Value) × Value) :=
      match mlookup st.valueCache bufr_key.key with
      | some v => some (st.valueCache, v)
      | none =>
        match mlookup message bufr_key.key with
        | some v => some (st.valueCache ++ [(bufr_key.key, v)], v)
        | none => none
    match fetched with
    | none => none
    | some (vc, v0) =>
      let value := resolveMissing (resolveSubset subsetCount subset v0)
      match filters.lookup name with
      | some flt =>
        if flt.matchVal value then
          some (emits, ⟨vc, dictInsert bt.1 name value, level :: bt.2, none⟩)
        else
          some (emits, ⟨vc, bt.1, bt.2, some level⟩)
      | none =>
        some (emits, ⟨vc, dictInsert bt.1 name value, level :: bt.2, st.failed⟩)

/-- Key loop of one subset: runs `extractStep` over the filtered keys,
collecting emissions; the flag is false when a `KeyError` aborted the
walk (emissions produced before the abort are kept, as a consumer of
the Python generator would have received them). -/
def extractLoop (message : Message) (subsetCount subset : Nat) (filters : Filters) :
    List BufrKey → ExtState → List Obs × ExtState × Bool
  | [], st => ([], st, true)
  | k :: rest, st =>
    match extractStep message subsetCount subset filters st k with
    | none => ([], st, false)
    | some (ems, st2) =>
      let r := extractLoop message subsetCount subset filters rest st2
      (ems ++ r.1, r.2.1, r.2.2)

/-- One subset pass: fresh record seeded from the base observation,
level stack `[0]`, shared value cache; after the loop the final record
is emitted when every filtered name is present. -/
def runSubset (message : Message) (subsetCount subset : Nat) (filters : Filters)
    (base : Obs) (filtered_keys : List BufrKey) (vcache : List (String × Value)) :
    List Obs × List (String × Value) × Bool :=
  let r := extractLoop message subsetCount subset filters filtered_keys
    ⟨vcache, base, [0], none⟩
  if r.2.2 && allFilterNamesPresent filters r.2.1.obs then
    (r.1 ++ [r.2.1.obs], r.2.1.valueCache, r.2.2)
  else (r.1, r.2.1.valueCache, r.2.2)

/-- Compression flag: `bool(message["compressedData"])`, false when the
key is absent. -/
def isCompressed (message : Message) : Bool :=
  match mlookup message "compressedData" with
  | some v => v.truthy
  | none => false

/-- Subset count: the declared number of subsets when compressed, else
1 (`none` models the uncaught error of a compressed message whose
subset count is absent or not an integer). -/
def subsetCountOf (message : Message) : Option Nat :=
  if isCompressed message then
    match mlookup message "numberOfSubsets" with
    | some (Value.scalar (Scalar.sint n)) => some n.toNat
    | _ => none
  else some 1

/-- Subset iteration of `extract_observations`, threading the shared
per-message value cache and stopping at the first aborted subset. -/
def subsetsLoop (message : Message) (subsetCount : Nat) (filters : Filters)
    (base : Obs) (filtered_keys : List BufrKey) :
    List Nat → List (String × Value) → List Obs × Bool
  | [], _ => ([], true)
  | s :: rest, vc =>
    let r := runSubset message subsetCount s filters base filtered_keys vc
    if r.2.2 then
      let r2 := subsetsLoop message subsetCount filters base filtered_keys rest r.2.1
      (r.1 ++ r2.1, r2.2)
    else (r.1, false)

/-- Observation Extractor `extract_observations`: the records yielded
for one message, with a flag that is false when the walk raised (the
records produced before the raise are kept). -/
def extract_observations (message : Message) (filtered_keys : List BufrKey)
    (filters : Filters) (base_observation : Obs) : List Obs × Bool :=
  match subsetCountOf message with
  | none => ([], false)
  | some sc =>
    subsetsLoop message sc filters base_observation filtered_keys (List.range sc) []

/-- Modelled from the spec: one entry of `bufr_read.COMPUTED_KEYS` (the
external `bufr_read` module): declared dependency keys, the computed
attribute name, and a getter evaluated on the observation (the fixed
prefix and key-list arguments of the source call site are absorbed into
the getter). -/
structure ComputedKey where
  keys : List String
  computed_key : String
  getter : Obs → Value

/-- Derived-attribute augmentation `add_computed_keys`: copy the
observation and add every requested computed attribute. -/
def add_computed_keys (computed_keys : List ComputedKey) (observation : Obs)
    (included_keys : List String) : Obs :=
  computed_keys.foldl
    (fun augmented ck =>
      if ck.computed_key ∈ included_keys then
        dictInsert augmented ck.computed_key (ck.getter observation)
      else augmented)
    observation

/-- Caller-supplied `required_columns` argument: a boolean, an iterable
of names, or anything else (rejected). -/
inductive RequiredColumnsArg where
  | boolArg : Bool → RequiredColumnsArg
  | iterArg : List String → RequiredColumnsArg
  | invalidArg : RequiredColumnsArg
deriving DecidableEq, Repr

/-- Message of the `ValueError` raised on an invalid `required_columns`
argument. -/
def REQUIRED_COLUMNS_ERROR : String :=
  "required_columns must be a bool or an iterable"

/-- Union of string lists with set-membership semantics. -/
def listUnion (a b : List String) : List String :=
  a ++ b.filter (fun s => s ∉ a)

/-- Dependency closure of the included keys: every requested computed
attribute contributes its declared dependency keys (the membership test
sees the set as grown so far, as the source loop does). -/
def addComputedDeps (computed_keys : List ComputedKey) (included : List String) :
    List String :=
  computed_keys.foldl
    (fun acc ck => if ck.computed_key ∈ acc then listUnion acc ck.keys else acc)
    included

/-- Column projection and required-columns check applied to each record
the Observation Extractor yields. -/
def projectRecords (computed_keys : List ComputedKey) (included columns required : List String)
    (records : List Obs) : List Obs :=
  (records.map (fun observation =>
      (add_computed_keys computed_keys observation included).filter
        (fun p => p.1 ∈ columns))).filter
    (fun data => required.all (fun s => obsHas data s))

/-- Records one unpacked message contributes to the stream: the base
observation seeds the synthetic `count` attribute when requested, then
extraction, augmentation, projection and the required-columns check
run; the flag is the extractor's no-error flag. -/
def fsRecords (computed_keys : List ComputedKey) (columns : List String)
    (filters : Filters) (required included : List String) (count : Nat)
    (message : Message) (filtered_keys : List BufrKey) : List Obs × Bool :=
  let base : Obs :=
    if "count" ∈ included then [("count", Value.vint count)] else []
  let eo := extract_observations message filtered_keys filters base
  (projectRecords computed_keys included columns required eo.1, eo.2)

/-- Message loop of `filter_stream` over the enumerated source: count
filter check, optional header prefilter, cached key filtering,
extraction, projection, and the `count` upper-bound break. Returns the
yielded records, the number of messages pulled from the source, and the
propagated error if one was raised. The decoder control flags the
source sets before unpacking (`skipExtraKeyAttributes`, `unpack`)
instruct the external decoder and are not part of the key stream, so
they are a no-op here. -/
def fsLoop (computed_keys : List ComputedKey) (is_match : Message → Filters → Bool → Bool)
    (columns : List String) (filters : Filters) (required included : List String)
    (maxCount : Option Nat) (prefilter_headers : Bool) :
    Nat → Cache → List Message → List Obs × Nat × Option String
  | _, _, [] => ([], 0, none)
  | count, cache, message :: rest =>
    if (filters.lookup "count").elim false (fun f => !f.matchVal (Value.vint count)) then
      let r := fsLoop computed_keys is_match columns filters required included
        maxCount prefilter_headers (count + 1) cache rest
      (r.1, r.2.1 + 1, r.2.2)
    else if prefilter_headers && is_match message filters false then
      let r := fsLoop computed_keys is_match columns filters required included
        maxCount prefilter_headers (count + 1) cache rest
      (r.1, r.2.1 + 1, r.2.2)
    else
      match filter_keys_cached message cache included with
      | none => ([], 1, some "KeyError")
      | some (filtered_keys, cache2) =>
        let r0 := fsRecords computed_keys columns filters required included count
          message filtered_keys
        if !r0.2 then (r0.1, 1, some "KeyError")
        else if maxCount.elim false (fun mc => mc ≤ count) then (r0.1, 1, none)
        else
          let r := fsLoop computed_keys is_match columns filters required included
            maxCount prefilter_headers (count + 1) cache2 rest
          (r0.1 ++ r.1, r.2.1 + 1, r.2.2)

/-- Stream body shared by the valid `required_columns` shapes: build
the included-keys closure and the count bound, then run the message
loop on a fresh cache from count 1. -/
def filterStreamGo (computed_keys : List ComputedKey)
    (is_match : Message → Filters → Bool → Bool) (bufr_file : List Message)
    (columns : List String) (filters : Filters) (required : List String)
    (prefilter_headers : Bool) : List Obs × Nat × Option String :=
  let included := addComputedDeps computed_keys
    (listUnion (listUnion [] (filters.map Prod.fst)) columns)
  let maxCount := (filters.lookup "count").bind (fun f => f.max)
  fsLoop computed_keys is_match columns filters required included maxCount
    prefilter_headers 1 [] bufr_file

/-- Streaming entry point `filter_stream`. Modelled from the spec: the
filter-predicate compiler and the header matcher `is_match` of the
external `bufr_filters` module are out of scope, so `filters` arrives
already compiled and `is_match` is a parameter; `computed_keys` stands
for `bufr_read.COMPUTED_KEYS`. The `required_columns` argument is
normalized first: `True` means all requested columns, `False` none, an
iterable its own names, and anything else raises the `ValueError`
before the source is touched. Returns the yielded records, the number
of messages pulled from the source, and the error raised, if any. -/
def filter_stream (computed_keys : List ComputedKey)
    (is_match : Message → Filters → Bool → Bool) (bufr_file : List Message)
    (columns : List String) (filters : Filters)
    (required_columns : RequiredColumnsArg) (prefilter_headers : Bool) :
    List Obs × Nat × Option String :=
  match required_columns with
  | RequiredColumnsArg.invalidArg => ([], 0, some REQUIRED_COLUMNS_ERROR)
  | RequiredColumnsArg.boolArg true =>
    filterStreamGo computed_keys is_match bufr_file columns filters columns
      prefilter_headers
  | RequiredColumnsArg.boolArg false =>
    filterStreamGo computed_keys is_match bufr_file columns filters []
      prefilter_headers
  | RequiredColumnsArg.iterArg l =>
    filterStreamGo computed_keys is_match bufr_file columns filters l
      prefilter_headers

/-! Concrete instances used by the claim theorems and witnesses; the
message layouts mirror the repository's own unit tests. -/

/-- Message of the nested-group level-assignment example: ranked
coordinate groups with `subsetNumber` forced-coordinate and `latitude`
coordinate by code. -/
def levelsMsg : Message := [
  ("edition", Value.vint 1),
  ("#1#year", Value.vint 2020),
  ("#1#subsetNumber", Value.vint 1),
  ("#1#latitude", Value.vfloat 43),
  ("#1#temperature", Value.vfloat 300),
  ("#2#latitude", Value.vfloat 42),
  ("#2#temperature", Value.vfloat 310),
  ("#2#subsetNumber", Value.vint 2),
  ("#3#temperature", Value.vfloat 300),
  ("#1#latitude->code", Value.vstr "005002"),
  ("#2#latitude->code", Value.vstr "005002")]

/-- Message of the simple extraction example: two pressure groups, the
second temperature carrying the missing sentinel. -/
def pressureMsg : Message := [
  ("#1#pressure", Value.vint 100),
  ("#1#temperature", Value.vfloat 300),
  ("#2#pressure", Value.vint 90),
  ("#2#temperature", Value.vfloat CODES_MISSING_DOUBLE),
  ("#1#pressure->code", Value.vstr "005002"),
  ("#2#pressure->code", Value.vstr "005002")]

/-- Filtered key list for `pressureMsg`: every data key, the trailing
code pseudo-keys sliced off as the repository tests do. -/
def pressureKeys : List BufrKey :=
  ((filter_keys pressureMsg []).dropLast).dropLast

/-- Non-compressed message holding an array value of length one. -/
def arrayMsg : Message := [("x", Value.varr [Scalar.sint 7])]

/-- Message with the fingerprint header fields of the repository's
cache test. -/
def cacheMsg : Message := [
  ("edition", Value.vint 3),
  ("masterTableNumber", Value.vint 0),
  ("unexpandedDescriptors", Value.varr [Scalar.sint 321212, Scalar.sint 321213]),
  ("numberOfSubsets", Value.vint 1)]

/-- Key list `filter_keys` produces for `cacheMsg`. -/
def cacheMsgKeys : List BufrKey := [
  ⟨0, 0, "edition"⟩, ⟨0, 0, "masterTableNumber"⟩,
  ⟨0, 0, "unexpandedDescriptors"⟩, ⟨0, 0, "numberOfSubsets"⟩]

/-- Structural fingerprint of `cacheMsg`. -/
def cacheMsgUid : List UidElem := [
  some (Value.vint 3), some (Value.vint 0), some (Value.vint 1),
  some (Value.vint 321212), some (Value.vint 321213), none]

/-- Cache contents after one unfiltered call on `cacheMsg`. -/
def cacheAfterFirst : Cache := [(cacheMsgUid, cacheMsgKeys)]

/-- Header-only message whose descriptor field is the scalar 5. -/
def scalarDescMsg : Message := [
  ("edition", Value.vint 4),
  ("masterTableNumber", Value.vint 0),
  ("numberOfSubsets", Value.vint 1),
  ("unexpandedDescriptors", Value.vint 5)]

/-- Same header fields with the one-element sequence `[5]` as the
descriptor field. -/
def listDescMsg : Message := [
  ("edition", Value.vint 4),
  ("masterTableNumber", Value.vint 0),
  ("numberOfSubsets", Value.vint 1),
  ("unexpandedDescriptors", Value.varr [Scalar.sint 5])]

/-- Count filter matching everything with upper bound 2. -/
def countFilterTwo : BufrFilter := ⟨fun _ => true, some 2⟩

/-- Trivial always-matching filter with no bound. -/
def trueFilter : BufrFilter := ⟨fun _ => true, none⟩

/-- Source stream of three copies of `scalarDescMsg`. -/
def threeMsgs : List Message := [scalarDescMsg, scalarDescMsg, scalarDescMsg]

/-- Cache contents after a second, `edition`-filtered call on
`cacheMsg`. -/
def cacheAfterSecond : Cache := [
  (cacheMsgUid, cacheMsgKeys),
  (cacheMsgUid ++ [some (Value.vstr "edition")], [⟨0, 0, "edition"⟩])]

/-- Key list `filter_keys` produces for `scalarDescMsg`. -/
def scalarDescKeys : List BufrKey := [
  ⟨0, 0, "edition"⟩, ⟨0, 0, "masterTableNumber"⟩,
  ⟨0, 0, "numberOfSubsets"⟩, ⟨0, 0, "unexpandedDescriptors"⟩]

/-- Structural fingerprint shared by `scalarDescMsg` and
`listDescMsg`. -/
def scalarDescUid : List UidElem := [
  some (Value.vint 4), some (Value.vint 0), some (Value.vint 1),
  some (Value.vint 5), none]

/-- Cache contents after one unfiltered call on `scalarDescMsg`. -/
def cacheScalarDesc : Cache := [(scalarDescUid, scalarDescKeys)]

/-- Well-formedness of the Level Assigner state: every stacked level is
below the current level and the stack levels strictly decrease from the
most recent entry down. -/
def goodStack (level : Nat) (coords : List (String × Nat)) : Prop :=
  (∀ c ∈ coords, c.2 < level) ∧ List.Pairwise (fun a b => b.2 < a.2) coords

/-- Test whether a fingerprint component is a string value. -/
def uidElemIsStr : UidElem → Bool
  | some (Value.scalar (Scalar.sstr _)) => true
  | _ => false

/-- A fingerprint with no string component, as every real decoder
message produces (its header fields are integers). -/
def UidStrFree (u : List UidElem) : Prop :=
  ∀ e ∈ u, uidElemIsStr e = false

instance (u : List UidElem) : Decidable (UidStrFree u) :=
  List.decidableBAll (fun e => uidElemIsStr e = false) u

/-! Claim theorems. -/

/-- C1: for the key sequence `edition, #1#year, #1#subsetNumber,
#1#latitude, #1#temperature, #2#latitude, #2#temperature,
#2#subsetNumber, #3#temperature` (with `subsetNumber` forced-coordinate
and `latitude` coordinate by code) the Level Assigner emits the levels
`0,0,0,1,2,1,2,0,1` in that order, each key paired to its level. -/
theorem levels_for_nested_groups :
    (message_structure levelsMsg).take 9 = [
      (0, "edition"), (0, "#1#year"), (0, "#1#subsetNumber"),
      (1, "#1#latitude"), (2, "#1#temperature"), (1, "#2#latitude"),
      (2, "#2#temperature"), (0, "#2#subsetNumber"), (1, "#3#temperature")] := by
  decide

set_option maxRecDepth 10000 in
/-- C2: with no filters and an empty base observation, the Observation
Extractor on the two-group pressure message yields exactly the records
`{pressure: 100, temperature: 300.0}` and `{pressure: 90,
temperature: None}` in that order, the missing float sentinel replaced
by the absence marker. -/
theorem extract_pressure_message :
    extract_observations pressureMsg pressureKeys [] [] =
      ([[("pressure", Value.vint 100), ("temperature", Value.vfloat 300)],
        [("pressure", Value.vint 90), ("temperature", Value.vnone)]], true) := by
  decide

/-- C5 counterexample: the claim says no retrieved array value of a
non-compressed message is subset-indexed, but `arrayMsg` is not
compressed and its length-one array value is indexed by subset number
0, so the extracted record holds the indexed scalar rather than the
array. -/
theorem array_indexing_without_compression :
    isCompressed arrayMsg = false ∧
    subsetIndexed 1 (Value.varr [Scalar.sint 7]) = true ∧
    resolveSubset 1 0 (Value.varr [Scalar.sint 7]) ≠ Value.varr [Scalar.sint 7] ∧
    (extract_observations arrayMsg [⟨0, 0, "x"⟩] [] []).1 =
      [[("x", Value.vint 7)]] := by
  decide

/-- C5 amended: a retrieved value is subset-indexed exactly when it is
an array whose length equals the subset count, the subset count being
the declared number of subsets for a compressed message and 1
otherwise; an unindexed value is left unchanged. -/
theorem subset_indexing_condition (message : Message) (sc subset : Nat) (v : Value)
    (hsc : subsetCountOf message = some sc) :
    (isCompressed message = false → sc = 1) ∧
    (subsetIndexed sc v = true ↔ ∃ l, v = Value.varr l ∧ l.length = sc) ∧
    (subsetIndexed sc v = false → resolveSubset sc subset v = v) := by
  refine ⟨?_, ?_, ?_⟩
  · intro hc
    simp only [subsetCountOf, hc, Bool.false_eq_true, if_false,
      Option.some.injEq] at hsc
    omega
  · constructor
    · intro h
      cases v with
      | scalar s => simp [subsetIndexed] at h
      | varr l => exact ⟨l, rfl, by simpa [subsetIndexed] using h⟩
    · rintro ⟨l, rfl, hl⟩
      simp [subsetIndexed, hl]
  · intro h
    cases v with
    | scalar s => rfl
    | varr l =>
      simp only [subsetIndexed, beq_eq_false_iff_ne, ne_eq] at h
      simp [resolveSubset, h]

/-- C5 amended, witness at the non-compressed array message. -/
theorem subset_indexing_condition_witness :
    (isCompressed arrayMsg = false → 1 = 1) ∧
    (subsetIndexed 1 (Value.varr [Scalar.sint 7]) = true ↔
      ∃ l, Value.varr [Scalar.sint 7] = Value.varr l ∧ l.length = 1) ∧
    (subsetIndexed 1 (Value.varr [Scalar.sint 7]) = false →
      resolveSubset 1 0 (Value.varr [Scalar.sint 7]) = Value.varr [Scalar.sint 7]) :=
  subset_indexing_condition arrayMsg 1 0 (Value.varr [Scalar.sint 7]) (by decide)

/-- C4: with an empty include set the Key Filter yields every key of
the leveled stream in order; with a non-empty include set it yields
exactly the keys whose bare name or full ranked identity is included,
preserving relative order. -/
theorem filter_keys_characterization (message : Message) (inc : List String) :
    (inc = [] → filter_keys message inc =
      (message_structure message).map (fun p => BufrKey.from_level_key p.1 p.2)) ∧
    (inc ≠ [] → filter_keys message inc =
      ((message_structure message).map (fun p => BufrKey.from_level_key p.1 p.2)).filter
        (fun k => decide (k.name ∈ inc ∨ k.key ∈ inc))) := by
  constructor
  · intro h
    subst h
    simp [filter_keys]
  · intro h
    unfold filter_keys
    refine List.filter_congr ?_
    intro k _
    simp [h]

/-- C4 witness at the cache-test message with the empty and a singleton
include set. -/
theorem filter_keys_characterization_witness :
    filter_keys cacheMsg [] =
      (message_structure cacheMsg).map (fun p => BufrKey.from_level_key p.1 p.2) ∧
    filter_keys cacheMsg ["edition"] =
      ((message_structure cacheMsg).map (fun p => BufrKey.from_level_key p.1 p.2)).filter
        (fun k => decide (k.name ∈ ["edition"] ∨ k.key ∈ ["edition"])) :=
  ⟨(filter_keys_characterization cacheMsg []).1 rfl,
   (filter_keys_characterization cacheMsg ["edition"]).2 (by decide)⟩

/-- Every record a single key step emits satisfies the filtered-names
guard, since the emit check conjoins it. -/
theorem extractStep_emits (message : Message) (sc subset : Nat) (filters : Filters)
    (st : ExtState) (k : BufrKey) (ems : List Obs) (st2 : ExtState)
    (h : extractStep message sc subset filters st k = some (ems, st2)) :
    ∀ o ∈ ems, allFilterNamesPresent filters o = true := by
  intro o ho
  unfold extractStep at h
  by_cases hf : failedSkip st.failed k.level = true
  · rw [if_pos hf] at h
    obtain ⟨h1, -⟩ := Prod.mk.injEq .. ▸ Option.some.inj h
    subst h1
    simp at ho
  · rw [if_neg hf] at h
    simp only at h
    split at h
    · exact absurd h (by simp)
    · split at h <;> [skip; skip] <;> first
        | (split at h <;>
            · obtain ⟨h1, -⟩ := Prod.mk.injEq .. ▸ Option.some.inj h
              subst h1
              split at ho
              · next hc =>
                  obtain rfl : o = st.obs := by simpa using ho
                  exact (Bool.and_eq_true .. ▸ hc).1
              · simp at ho)
        | (obtain ⟨h1, -⟩ := Prod.mk.injEq .. ▸ Option.some.inj h
           subst h1
           split at ho
           · next hc =>
               obtain rfl : o = st.obs := by simpa using ho
               exact (Bool.and_eq_true .. ▸ hc).1
           · simp at ho)

/-- Every record the key loop emits satisfies the filtered-names
guard. -/
theorem extractLoop_emits (message : Message) (sc subset : Nat) (filters : Filters) :
    ∀ (keys : List BufrKey) (st : ExtState),
      ∀ o ∈ (extractLoop message sc subset filters keys st).1,
        allFilterNamesPresent filters o = true := by
  intro keys
  induction keys with
  | nil => intro st o ho; simp [extractLoop] at ho
  | cons k rest ih =>
    intro st o ho
    unfold extractLoop at ho
    cases hs : extractStep message sc subset filters st k with
    | none => rw [hs] at ho; simp at ho
    | some r =>
      obtain ⟨ems, st2⟩ := r
      rw [hs] at ho
      simp only [List.mem_append] at ho
      rcases ho with h1 | h2
      · exact extractStep_emits message sc subset filters st k ems st2 hs o h1
      · exact ih st2 o h2

/-- Every record one subset pass emits satisfies the filtered-names
guard; the final emission is guarded by the same check. -/
theorem runSubset_emits (message : Message) (sc subset : Nat) (filters : Filters)
    (base : Obs) (keys : List BufrKey) (vc : List (String × Value)) :
    ∀ o ∈ (runSubset message sc subset filters base keys vc).1,
      allFilterNamesPresent filters o = true := by
  intro o ho
  simp only [runSubset] at ho
  split at ho
  · next hc =>
    simp only [List.mem_append, List.mem_singleton] at ho
    rcases ho with h1 | rfl
    · exact extractLoop_emits message sc subset filters keys _ o h1
    · exact (Bool.and_eq_true .. ▸ hc).2
  · exact extractLoop_emits message sc subset filters keys _ o ho

/-- Every record the subset iteration emits satisfies the
filtered-names guard. -/
theorem subsetsLoop_emits (message : Message) (sc : Nat) (filters : Filters)
    (base : Obs) (keys : List BufrKey) :
    ∀ (subsets : List Nat) (vc : List (String × Value)),
      ∀ o ∈ (subsetsLoop message sc filters base keys subsets vc).1,
        allFilterNamesPresent filters o = true := by
  intro subsets
  induction subsets with
  | nil => intro vc o ho; simp [subsetsLoop] at ho
  | cons s rest ih =>
    intro vc o ho
    simp only [subsetsLoop] at ho
    split at ho
    · simp only [List.mem_append] at ho
      rcases ho with h1 | h2
      · exact runSubset_emits message sc s filters base keys vc o h1
      · exact ih _ o h2
    · exact runSubset_emits message sc s filters base keys vc o ho

/-- C3: every record `extract_observations` emits, at a reset point or
as the final emission, contains every bare name of the filters mapping;
a record missing some filtered name is never emitted. -/
theorem emitted_records_contain_filtered_names (message : Message)
    (filtered_keys : List BufrKey) (filters : Filters) (base_observation : Obs) :
    ∀ obs ∈ (extract_observations message filtered_keys filters base_observation).1,
      allFilterNamesPresent filters obs = true := by
  intro obs hobs
  unfold extract_observations at hobs
  split at hobs
  · simp at hobs
  · exact subsetsLoop_emits message _ filters base_observation filtered_keys _ _ obs hobs

set_option maxRecDepth 10000 in
/-- C3 witness: the filtered name `pressure` is present in the first
record extracted from the pressure message under an always-true
`pressure` filter. -/
theorem emitted_records_contain_filtered_names_witness :
    allFilterNamesPresent [("pressure", trueFilter)]
      [("pressure", Value.vint 100), ("temperature", Value.vfloat 300)] = true :=
  emitted_records_contain_filtered_names pressureMsg pressureKeys
    [("pressure", trueFilter)] []
    [("pressure", Value.vint 100), ("temperature", Value.vfloat 300)]
    (by decide)

/-- Popping the Coordinate Stack never raises the level and preserves
stack well-formedness. -/
theorem popCoords_good (name : String) :
    ∀ (coords : List (String × Nat)) (level : Nat), goodStack level coords →
      (popCoords name level coords).1 ≤ level ∧
      goodStack (popCoords name level coords).1 (popCoords name level coords).2 := by
  intro coords
  induction coords with
  | nil => intro level h; exact ⟨le_refl level, h⟩
  | cons c rest ih =>
    intro level h
    obtain ⟨hall, hpw⟩ := h
    rw [List.pairwise_cons] at hpw
    obtain ⟨c1, c2⟩ := c
    unfold popCoords
    split
    · have hgs : goodStack c2 rest := ⟨fun d hd => hpw.1 d hd, hpw.2⟩
      have hr := ih c2 hgs
      exact ⟨hr.1.trans (le_of_lt (hall (c1, c2) (List.mem_cons_self _ _))),
        hr.2⟩
    · exact ⟨le_refl level, hall, List.pairwise_cons.mpr hpw⟩

/-- Chain bound of the Level Assigner loop: from a well-formed state,
each emitted level is at most one above the previous one, and the first
emitted level is at most the current level. -/
theorem msLoop_chain (message : Message) :
    ∀ (keys : List String) (level : Nat) (coords : List (String × Nat)),
      goodStack level coords →
      List.Chain' (fun a b => b ≤ a + 1) ((msLoop message keys level coords).map Prod.fst) ∧
      (∀ x ∈ ((msLoop message keys level coords).map Prod.fst).head?, x ≤ level) := by
  intro keys
  induction keys with
  | nil => intro level coords _; simp [msLoop]
  | cons key rest ih =>
    intro level coords hgs
    simp only [msLoop]
    by_cases hco : isCoord message key (bareName key) = true
    · simp only [hco, if_true, List.map_cons]
      have hp := popCoords_good (bareName key) coords level hgs
      set p := popCoords (bareName key) level coords with hpdef
      have hgs2 : goodStack (p.1 + 1) ((bareName key, p.1) :: p.2) := by
        constructor
        · intro d hd
          rcases List.mem_cons.mp hd with rfl | hd2
          · exact Nat.lt_succ_self _
          · exact (hp.2.1 d hd2).trans (Nat.lt_succ_self _)
        · exact List.pairwise_cons.mpr ⟨fun d hd => hp.2.1 d hd, hp.2.2⟩
      have hr := ih (p.1 + 1) ((bareName key, p.1) :: p.2) hgs2
      refine ⟨List.chain'_cons'.mpr ⟨fun y hy => ?_, hr.1⟩, ?_⟩
      · exact (hr.2 y hy).trans (le_refl _)
      · intro x hx
        simp only [List.head?_cons, Option.mem_def, Option.some.injEq] at hx
        exact hx ▸ hp.1
    · simp only [hco, if_false, List.map_cons]
      have hr := ih level coords hgs
      refine ⟨List.chain'_cons'.mpr ⟨fun y hy => ?_, hr.1⟩, ?_⟩
      · exact (hr.2 y hy).trans (Nat.le_succ _)
      · intro x hx
        simp only [List.head?_cons, Option.mem_def, Option.some.injEq] at hx
        exact hx ▸ le_refl _

/-- C7: in the leveled stream of the Level Assigner every emitted level
is at most one greater than the previous emitted level, and the first
emitted level is 0. -/
theorem level_stream_steps_bounded (message : Message) :
    List.Chain' (fun a b => b ≤ a + 1) ((message_structure message).map Prod.fst) ∧
    ((message_structure message).map Prod.fst).headD 0 = 0 := by
  have h := msLoop_chain message (message.map Prod.fst) 0 []
    ⟨fun c hc => absurd hc (List.not_mem_nil c), List.Pairwise.nil⟩
  rw [show msLoop message (message.map Prod.fst) 0 [] = message_structure message from rfl]
    at h
  refine ⟨h.1, ?_⟩
  cases hm : (message_structure message).map Prod.fst with
  | nil => rfl
  | cons a l =>
    have ha := h.2 a (by rw [hm]; simp)
    simpa using Nat.le_zero.mp ha

/-- A successful cache lookup means the key is stored. -/
theorem clookup_mem {cache : Cache} {k : List UidElem} {v : List BufrKey}
    (h : clookup cache k = some v) : k ∈ cache.map Prod.fst := by
  induction cache with
  | nil => simp [clookup] at h
  | cons e rest ih =>
    unfold clookup at h
    split at h
    · next he => simp [← he]
    · simp only [List.map_cons, List.mem_cons]
      exact Or.inr (ih h)

/-- A failed cache lookup means the key is absent. -/
theorem clookup_not_mem {cache : Cache} {k : List UidElem}
    (h : clookup cache k = none) : k ∉ cache.map Prod.fst := by
  induction cache with
  | nil => simp
  | cons e rest ih =>
    unfold clookup at h
    split at h
    · exact absurd h (by simp)
    · next he =>
      simp only [List.map_cons, List.mem_cons]
      rintro (rfl | hm)
      · exact he rfl
      · exact ih h hm

/-- Looking up the key of a freshly appended entry after a miss. -/
theorem clookup_append_fresh {cache : Cache} {k : List UidElem} {v : List BufrKey}
    (h : clookup cache k = none) : clookup (cache ++ [(k, v)]) k = some v := by
  induction cache with
  | nil => simp [clookup]
  | cons e rest ih =>
    rw [List.cons_append]
    unfold clookup at h ⊢
    split at h
    · exact absurd h (by simp)
    · next he => rw [if_neg he]; exact ih h

/-- Case analysis of one `filter_keys_cached` call: either a hit that
returns the stored list and leaves the cache unchanged, or a miss that
computes, appends and returns the new entry. -/
theorem fkc_cases {m : Message} {cache : Cache} {inc : List String}
    {r : List BufrKey} {c1 : Cache}
    (h : filter_keys_cached m cache inc = some (r, c1)) :
    ∃ k, cacheKey m inc = some k ∧
      ((clookup cache k = some r ∧ c1 = cache) ∨
       (clookup cache k = none ∧ r = filter_keys m (sortStrings inc) ∧
        c1 = cache ++ [(k, r)])) := by
  unfold filter_keys_cached at h
  cases hk : cacheKey m inc with
  | none => rw [hk] at h; exact absurd h (by simp)
  | some k =>
    rw [hk] at h
    simp only [Option.bind_eq_bind, Option.some_bind] at h
    refine ⟨k, rfl, ?_⟩
    split at h
    · next hl =>
      obtain ⟨rfl, rfl⟩ := Prod.mk.injEq .. ▸ Option.some.inj h
      exact Or.inl ⟨hl, rfl⟩
    · next hl =>
      obtain ⟨rfl, rfl⟩ := Prod.mk.injEq .. ▸ Option.some.inj h
      exact Or.inr ⟨hl, rfl, rfl⟩

/-- After any successful call the produced list is stored under the
call's cache key. -/
theorem fkc_lookup_after {m : Message} {cache : Cache} {inc : List String}
    {r : List BufrKey} {c1 : Cache} {k : List UidElem}
    (h : filter_keys_cached m cache inc = some (r, c1))
    (hk : cacheKey m inc = some k) : clookup c1 k = some r := by
  obtain ⟨k2, hk2, hcase⟩ := fkc_cases h
  obtain rfl : k2 = k := Option.some.inj (hk2 ▸ hk)
  rcases hcase with ⟨hl, rfl⟩ | ⟨hl, rfl, rfl⟩
  · exact hl
  · exact clookup_append_fresh hl

/-- A call whose key is already stored returns the stored entry and the
unchanged cache. -/
theorem fkc_hit {m : Message} {cache : Cache} {inc : List String}
    {r : List BufrKey} {k : List UidElem}
    (hk : cacheKey m inc = some k) (hl : clookup cache k = some r) :
    filter_keys_cached m cache inc = some (r, cache) := by
  unfold filter_keys_cached
  rw [hk]
  simp only [Option.bind_eq_bind, Option.some_bind, hl]
  rfl

/-- Injectivity of the flat cache key: a string-free fingerprint
followed by string elements determines both parts. -/
theorem uid_append_inj :
    ∀ (u u2 : List UidElem) (l l2 : List String),
      UidStrFree u → UidStrFree u2 →
      u ++ l.map (fun s => some (Value.vstr s)) =
        u2 ++ l2.map (fun s => some (Value.vstr s)) →
      u = u2 ∧ l = l2 := by
  intro u
  induction u with
  | nil =>
    intro u2 l l2 _ hu2 h
    cases u2 with
    | nil =>
      refine ⟨rfl, ?_⟩
      have := List.map_injective_iff.mpr
        (fun a b hab => by simpa using hab : Function.Injective
          (fun s : String => some (Value.vstr s))) (by simpa using h)
      exact this
    | cons e rest =>
      exfalso
      simp only [List.nil_append, List.cons_append] at h
      cases l with
      | nil => simp at h
      | cons s ls =>
        simp only [List.map_cons, List.cons.injEq] at h
        have := hu2 e (List.mem_cons_self _ _)
        rw [← h.1] at this
        simp [uidElemIsStr] at this
  | cons a u0 ih =>
    intro u2 l l2 hu hu2 h
    cases u2 with
    | nil =>
      exfalso
      simp only [List.cons_append, List.nil_append] at h
      cases l2 with
      | nil => simp at h
      | cons s ls =>
        simp only [List.map_cons, List.cons.injEq] at h
        have := hu a (List.mem_cons_self _ _)
        rw [h.1] at this
        simp [uidElemIsStr] at this
    | cons a2 rest =>
      simp only [List.cons_append, List.cons.injEq] at h
      obtain ⟨rfl, htail⟩ := h
      have hr := ih rest l l2 (fun e he => hu e (List.mem_cons_of_mem _ he))
        (fun e he => hu2 e (List.mem_cons_of_mem _ he)) htail
      exact ⟨by rw [hr.1], hr.2⟩

/-- Cache keys of calls and stored entries after a batch: the key set
of the final cache is exactly the set of call keys seen, with no
duplicate entries. -/
theorem runCalls_keys :
    ∀ (calls : List (Message × List String)) (cache c2 : Cache),
      runCalls calls cache = some c2 → (cache.map Prod.fst).Nodup →
      (c2.map Prod.fst).Nodup ∧
      ∀ k, k ∈ c2.map Prod.fst ↔
        (k ∈ cache.map Prod.fst ∨ ∃ call ∈ calls, cacheKey call.1 call.2 = some k) := by
  intro calls
  induction calls with
  | nil =>
    intro cache c2 h hnd
    obtain rfl : cache = c2 := by simpa [runCalls] using h
    exact ⟨hnd, fun k => by simp⟩
  | cons call rest ih =>
    intro cache c2 h hnd
    obtain ⟨m, inc⟩ := call
    unfold runCalls at h
    cases hc : filter_keys_cached m cache inc with
    | none => rw [hc] at h; exact absurd h (by simp)
    | some r =>
      rw [hc] at h
      simp only [Option.bind_eq_bind, Option.some_bind] at h
      obtain ⟨k, hk, hcase⟩ := fkc_cases hc
      rcases hcase with ⟨hl, hcc⟩ | ⟨hl, -, hcc⟩
      · have hr := ih r.2 c2 h (by rw [hcc]; exact hnd)
        refine ⟨hr.1, fun k2 => ?_⟩
        rw [hr.2 k2, hcc]
        constructor
        · rintro (hm | ⟨c, hcr, hck⟩)
          · exact Or.inl hm
          · exact Or.inr ⟨c, List.mem_cons_of_mem _ hcr, hck⟩
        · rintro (hm | ⟨c, hcm, hck⟩)
          · exact Or.inl hm
          · rcases List.mem_cons.mp hcm with rfl | hcr
            · have hkk : k2 = k := Option.some.inj (hck.symm.trans hk)
              subst hkk
              exact Or.inl (clookup_mem hl)
            · exact Or.inr ⟨c, hcr, hck⟩
      · have hnd2 : (r.2.map Prod.fst).Nodup := by
          rw [hcc]
          simp only [List.map_append, List.map_cons, List.map_nil]
          rw [List.nodup_append]
          refine ⟨hnd, List.nodup_singleton k, fun a ha hb => ?_⟩
          exact clookup_not_mem hl ((List.mem_singleton.mp hb) ▸ ha)
        have hr := ih r.2 c2 h hnd2
        refine ⟨hr.1, fun k2 => ?_⟩
        rw [hr.2 k2, hcc]
        simp only [List.map_append, List.map_cons, List.map_nil, List.mem_append,
          List.mem_singleton, List.mem_cons, List.mem_nil_iff, or_false]
        constructor
        · rintro ((hm | rfl) | ⟨c, hcr, hck⟩)
          · exact Or.inl hm
          · exact Or.inr ⟨(m, inc), Or.inl rfl, hk⟩
          · exact Or.inr ⟨c, Or.inr hcr, hck⟩
        · rintro (hm | ⟨c, rfl | hcr, hck⟩)
          · exact Or.inl (Or.inl hm)
          · exact Or.inl (Or.inr (Option.some.inj (hck.symm.trans hk)))
          · exact Or.inr ⟨c, hcr, hck⟩

/-- C6: a second `filter_keys_cached` call with the same fingerprint
and include set returns exactly the stored list with the cache
unchanged; calls differing in the fingerprint or in the sorted include
set use distinct cache keys and therefore independent entries; after
any batch of calls the cache holds exactly one entry per distinct
(fingerprint, include-set) pair seen. -/
theorem structure_cache_behavior :
    (∀ (m m2 : Message) (inc inc2 : List String) (cache : Cache)
       (r : List BufrKey) (c1 : Cache),
       filter_keys_cached m cache inc = some (r, c1) →
       cacheKey m2 inc2 = cacheKey m inc →
       filter_keys_cached m2 c1 inc2 = some (r, c1)) ∧
    (∀ (m m2 : Message) (inc inc2 : List String) (u u2 : List UidElem),
       make_message_uid m = some u → make_message_uid m2 = some u2 →
       UidStrFree u → UidStrFree u2 →
       (u ≠ u2 ∨ sortStrings inc ≠ sortStrings inc2) →
       cacheKey m inc ≠ cacheKey m2 inc2) ∧
    (∀ (calls : List (Message × List String)) (c2 : Cache),
       runCalls calls [] = some c2 →
       (c2.map Prod.fst).Nodup ∧
       ∀ k, k ∈ c2.map Prod.fst ↔ ∃ call ∈ calls, cacheKey call.1 call.2 = some k) := by
  refine ⟨?_, ?_, ?_⟩
  · intro m m2 inc inc2 cache r c1 h hsame
    obtain ⟨k, hk, -⟩ := fkc_cases h
    exact fkc_hit (hsame.trans hk) (fkc_lookup_after h hk)
  · intro m m2 inc inc2 u u2 hu hu2 hsf hsf2 hne heq
    rw [cacheKey, cacheKey, hu, hu2] at heq
    simp only [Option.map_some'] at heq
    have := uid_append_inj u u2 (sortStrings inc) (sortStrings inc2) hsf hsf2
      (Option.some.inj heq)
    rcases hne with hne | hne
    · exact hne this.1
    · exact hne this.2
  · intro calls c2 h
    have hr := runCalls_keys calls [] c2 h (by simp)
    exact ⟨hr.1, fun k => by simpa using hr.2 k⟩

set_option maxRecDepth 4000 in
/-- C6 witness: the second unfiltered call on `cacheMsg` returns the
stored list and leaves the cache unchanged; the unfiltered and the
`edition`-filtered call use distinct cache keys; after those two calls
the cache holds two entries with no duplicate keys. -/
theorem structure_cache_behavior_witness :
    filter_keys_cached cacheMsg cacheAfterFirst [] =
      some (cacheMsgKeys, cacheAfterFirst) ∧
    cacheKey cacheMsg [] ≠ cacheKey cacheMsg ["edition"] ∧
    (cacheAfterSecond.map Prod.fst).Nodup :=
  ⟨structure_cache_behavior.1 cacheMsg cacheMsg [] [] [] cacheMsgKeys cacheAfterFirst
      (by decide) rfl,
   structure_cache_behavior.2.1 cacheMsg cacheMsg [] ["edition"] cacheMsgUid cacheMsgUid
      (by decide) (by decide) (by decide) (by decide) (Or.inr (by decide)),
   (structure_cache_behavior.2.2 [(cacheMsg, []), (cacheMsg, ["edition"])]
      cacheAfterSecond (by decide)).1⟩

/-- C10: the fingerprint builder appends the `None` sentinel after the
descriptor component for a scalar descriptor exactly as for a sequence,
so a message whose descriptor field is the scalar `d` and one whose
field is the one-element sequence `[d]`, all other header fields equal,
share their fingerprint, and the second message's call hits the cache
entry the first one created. -/
theorem scalar_and_singleton_descriptors_share_entry
    (m1 m2 : Message) (d : Int)
    (he : mlookup m1 "edition" = mlookup m2 "edition")
    (hm : mlookup m1 "masterTableNumber" = mlookup m2 "masterTableNumber")
    (hn : mlookup m1 "numberOfSubsets" = mlookup m2 "numberOfSubsets")
    (hd1 : mlookup m1 "unexpandedDescriptors" = some (Value.vint d))
    (hd2 : mlookup m2 "unexpandedDescriptors" = some (Value.varr [Scalar.sint d]))
    (hdd : mlookup m1 "delayedDescriptorReplicationFactor" =
      mlookup m2 "delayedDescriptorReplicationFactor") :
    make_message_uid m1 = make_message_uid m2 ∧
    ∀ (inc : List String) (cache : Cache) (r : List BufrKey) (c1 : Cache),
      filter_keys_cached m1 cache inc = some (r, c1) →
      filter_keys_cached m2 c1 inc = some (r, c1) := by
  have huid : make_message_uid m1 = make_message_uid m2 := by
    unfold make_message_uid
    rw [he, hm, hn, hd1, hd2, hdd]
    simp only [Option.bind_eq_bind, Option.some_bind, List.map_cons, List.map_nil,
      List.singleton_append]
  refine ⟨huid, fun inc cache r c1 h => ?_⟩
  have hck : cacheKey m2 inc = cacheKey m1 inc := by
    unfold cacheKey
    rw [huid]
  obtain ⟨k, hk, -⟩ := fkc_cases h
  exact fkc_hit (hck.trans hk) (fkc_lookup_after h hk)

set_option maxRecDepth 4000 in
/-- C10 witness at the concrete scalar- and sequence-descriptor
messages. -/
theorem scalar_and_singleton_descriptors_share_entry_witness :
    make_message_uid scalarDescMsg = make_message_uid listDescMsg ∧
    filter_keys_cached listDescMsg cacheScalarDesc [] =
      some (scalarDescKeys, cacheScalarDesc) := by
  have h := scalar_and_singleton_descriptors_share_entry scalarDescMsg listDescMsg 5
    (by decide) (by decide) (by decide) (by decide) (by decide) (by decide)
  exact ⟨h.1, h.2 [] [] scalarDescKeys cacheScalarDesc (by decide)⟩

/-- The message loop never raises the required-columns configuration
error: its only error paths propagate decoder `KeyError`s. -/
theorem fsLoop_no_config_error (ck : List ComputedKey)
    (im : Message → Filters → Bool → Bool) (columns : List String) (filters : Filters)
    (required included : List String) (maxCount : Option Nat) (pf : Bool) :
    ∀ (msgs : List Message) (count : Nat) (cache : Cache),
      (fsLoop ck im columns filters required included maxCount pf
        count cache msgs).2.2 ≠ some REQUIRED_COLUMNS_ERROR := by
  intro msgs
  induction msgs with
  | nil => intro count cache; simp [fsLoop]
  | cons msg rest ih =>
    intro count cache
    simp only [fsLoop]
    split
    · exact ih (count + 1) cache
    · split
      · exact ih (count + 1) cache
      · cases hq : filter_keys_cached msg cache included with
        | none =>
          simp only [hq]
          intro hcontra
          exact absurd (Option.some.inj hcontra) (by decide)
        | some p =>
          obtain ⟨fk, cache2⟩ := p
          simp only [hq]
          split
          · intro hcontra
            exact absurd (Option.some.inj hcontra) (by decide)
          · split
            · simp
            · exact ih (count + 1) cache2

/-- C9: an invalid `required_columns` argument is rejected immediately,
before any message of the source is pulled, whatever the source holds;
a boolean or iterable argument never produces that error. -/
theorem invalid_required_columns_rejected (computed_keys : List ComputedKey)
    (is_match : Message → Filters → Bool → Bool) (bufr_file : List Message)
    (columns : List String) (filters : Filters) (prefilter_headers : Bool) :
    (∀ file2 : List Message,
       filter_stream computed_keys is_match file2 columns filters
         RequiredColumnsArg.invalidArg prefilter_headers =
       ([], 0, some REQUIRED_COLUMNS_ERROR)) ∧
    (∀ rc : RequiredColumnsArg, rc ≠ RequiredColumnsArg.invalidArg →
       (filter_stream computed_keys is_match bufr_file columns filters rc
         prefilter_headers).2.2 ≠ some REQUIRED_COLUMNS_ERROR) := by
  constructor
  · intro file2
    rfl
  · intro rc hrc
    cases rc with
    | invalidArg => exact absurd rfl hrc
    | boolArg b =>
      cases b <;>
      · simp only [filter_stream, filterStreamGo]
        exact fsLoop_no_config_error computed_keys is_match columns filters _ _ _
          prefilter_headers bufr_file 1 []
    | iterArg l =>
      simp only [filter_stream, filterStreamGo]
      exact fsLoop_no_config_error computed_keys is_match columns filters _ _ _
        prefilter_headers bufr_file 1 []

/-- C9 witness: the invalid argument is rejected on an arbitrary
source, and the default boolean argument never yields that error. -/
theorem invalid_required_columns_rejected_witness :
    filter_stream [] (fun _ _ _ => false) [scalarDescMsg] [] []
      RequiredColumnsArg.invalidArg false =
      ([], 0, some REQUIRED_COLUMNS_ERROR) ∧
    (filter_stream [] (fun _ _ _ => false) [scalarDescMsg] [] []
      (RequiredColumnsArg.boolArg true) false).2.2 ≠ some REQUIRED_COLUMNS_ERROR :=
  ⟨(invalid_required_columns_rejected [] (fun _ _ _ => false) [scalarDescMsg] [] []
      false).1 [scalarDescMsg],
   (invalid_required_columns_rejected [] (fun _ _ _ => false) [scalarDescMsg] [] []
      false).2 (RequiredColumnsArg.boolArg true) (by decide)⟩

/-- Pull bound of the message loop under a count filter whose upper
bound is matched by the filter itself and no header prefilter: at most
`mc + 1 - count` further messages are pulled, and exactly that many
when no error occurs and the source suffices. -/
theorem fsLoop_count_bound (ck : List ComputedKey)
    (im : Message → Filters → Bool → Bool) (columns : List String) (filters : Filters)
    (required included : List String) (cf : BufrFilter) (mc : Nat)
    (hcf : filters.lookup "count" = some cf)
    (hmatch : cf.matchVal (Value.vint mc) = true) :
    ∀ (msgs : List Message) (count : Nat) (cache : Cache), count ≤ mc →
      (fsLoop ck im columns filters required included (some mc) false
        count cache msgs).2.1 ≤ mc + 1 - count ∧
      ((fsLoop ck im columns filters required included (some mc) false
          count cache msgs).2.2 = none →
        mc + 1 - count ≤ msgs.length →
        (fsLoop ck im columns filters required included (some mc) false
          count cache msgs).2.1 = mc + 1 - count) := by
  intro msgs
  induction msgs with
  | nil =>
    intro count cache hcount
    simp only [fsLoop]
    exact ⟨Nat.zero_le _, fun _ hlen => by simp at hlen; omega⟩
  | cons msg rest ih =>
    intro count cache hcount
    simp only [fsLoop, hcf, Option.elim_some, Bool.false_and, Bool.false_eq_true,
      if_false, List.length_cons]
    split
    · next hskip =>
      have hlt : count < mc := by
        rcases Nat.lt_or_ge count mc with hl | hg
        · exact hl
        · exfalso
          have heq : count = mc := Nat.le_antisymm hcount hg
          rw [heq, hmatch] at hskip
          simp at hskip
      have hr := ih (count + 1) cache (by omega)
      dsimp only
      refine ⟨?_, fun herr hlen => ?_⟩
      · have h1 := hr.1
        omega
      · have h2 := hr.2 herr (by omega)
        omega
    · cases hq : filter_keys_cached msg cache included with
      | none =>
        simp only [hq]
        refine ⟨by omega, fun herr _ => ?_⟩
        simp at herr
      | some p =>
        obtain ⟨fk, cache2⟩ := p
        simp only [hq]
        split
        · dsimp only
          refine ⟨by omega, fun herr _ => ?_⟩
          simp at herr
        · split
          · next hbreak =>
            simp only [decide_eq_true_eq] at hbreak
            refine ⟨by dsimp only; omega, fun _ _ => by dsimp only; omega⟩
          · next hbreak =>
            simp only [decide_eq_true_eq] at hbreak
            have hlt : count < mc := by omega
            have hr := ih (count + 1) cache2 (by omega)
            dsimp only
            refine ⟨?_, fun herr hlen => ?_⟩
            · have h1 := hr.1
              omega
            · have h2 := hr.2 herr (by omega)
              omega

/-- C8: under a count filter exposing the upper bound `mc` (matched by
the filter, as the external compiler guarantees for an attained
maximum) and no header prefilter, the stream never pulls more than
`mc` messages, and pulls exactly `mc` when it finishes without error
and the source holds at least `mc` messages. -/
theorem count_upper_bound_terminates (computed_keys : List ComputedKey)
    (is_match : Message → Filters → Bool → Bool) (bufr_file : List Message)
    (columns : List String) (filters : Filters) (rc : RequiredColumnsArg)
    (cf : BufrFilter) (mc : Nat)
    (hcf : filters.lookup "count" = some cf)
    (hmax : cf.max = some mc)
    (hmatch : cf.matchVal (Value.vint mc) = true)
    (hmc : 1 ≤ mc) :
    (filter_stream computed_keys is_match bufr_file columns filters rc false).2.1 ≤ mc ∧
    ((filter_stream computed_keys is_match bufr_file columns filters rc false).2.2 = none →
      mc ≤ bufr_file.length →
      (filter_stream computed_keys is_match bufr_file columns filters rc false).2.1 = mc) := by
  have hbind : (filters.lookup "count").bind (fun f => f.max) = some mc := by
    rw [hcf]
    simpa using hmax
  cases rc with
  | invalidArg =>
    refine ⟨Nat.zero_le _, fun herr _ => ?_⟩
    simp [filter_stream] at herr
  | boolArg b =>
    cases b with
    | true =>
      simp only [filter_stream, filterStreamGo, hbind]
      have h := fsLoop_count_bound computed_keys is_match columns filters columns
        (addComputedDeps computed_keys
          (listUnion (listUnion [] (filters.map Prod.fst)) columns)) cf mc
        hcf hmatch bufr_file 1 [] hmc
      refine ⟨by omega, fun herr hlen => ?_⟩
      have h2 := h.2 herr (by omega)
      omega
    | false =>
      simp only [filter_stream, filterStreamGo, hbind]
      have h := fsLoop_count_bound computed_keys is_match columns filters []
        (addComputedDeps computed_keys
          (listUnion (listUnion [] (filters.map Prod.fst)) columns)) cf mc
        hcf hmatch bufr_file 1 [] hmc
      refine ⟨by omega, fun herr hlen => ?_⟩
      have h2 := h.2 herr (by omega)
      omega
  | iterArg l =>
    simp only [filter_stream, filterStreamGo, hbind]
    have h := fsLoop_count_bound computed_keys is_match columns filters l
      (addComputedDeps computed_keys
        (listUnion (listUnion [] (filters.map Prod.fst)) columns)) cf mc
      hcf hmatch bufr_file 1 [] hmc
    refine ⟨by omega, fun herr hlen => ?_⟩
    have h2 := h.2 herr (by omega)
    omega

set_option maxRecDepth 10000 in
/-- C8 witness: with an always-matching count filter bounded by 2 over
a three-message source, exactly two messages are pulled. -/
theorem count_upper_bound_terminates_witness :
    (filter_stream [] (fun _ _ _ => false) threeMsgs [] [("count", countFilterTwo)]
      (RequiredColumnsArg.boolArg true) false).2.1 = 2 :=
  (count_upper_bound_terminates [] (fun _ _ _ => false) threeMsgs []
      [("count", countFilterTwo)] (RequiredColumnsArg.boolArg true) countFilterTwo 2
      rfl rfl rfl (by decide)).2 (by decide) (by decide)

end PdBufr
